import Mathlib

/-!
Verification of the scrape-orchestration core of the obsidian-mcp-actor
repository against its natural-language specification.

JavaScript strings are modelled as `List Char`; JavaScript numbers used in
delay arithmetic are modelled as exact rationals (`ℚ`); the JS `Map` backing
the in-memory cache is modelled as an insertion-ordered association list.
Effectful orchestration code is modelled by explicit result/event-trace
values.
-/

set_option autoImplicit false
set_option maxRecDepth 8000

namespace ObsidianScraper

/-! ## JavaScript string primitives -/

/-- The whitespace characters removed by `String.prototype.trim` (ASCII part). -/
def isJsWs (c : Char) : Bool :=
  c = ' ' || c = '\t' || c = '\n' || c = '\r' || c = '\x0b' || c = '\x0c'

/-- Remove trailing characters satisfying `isJsWs` (right half of JS `trim`). -/
def trimR : List Char → List Char
  | [] => []
  | c :: cs =>
    match trimR cs with
    | [] => if isJsWs c then [] else [c]
    | r => c :: r

/-- Model of `String.prototype.trim`: drop leading and trailing whitespace. -/
def jsTrim (l : List Char) : List Char :=
  trimR (l.dropWhile isJsWs)

/-- Model of `s.startsWith(p)`: second argument is the pattern. -/
def startsL : List Char → List Char → Bool
  | _, [] => true
  | [], _ :: _ => false
  | c :: cs, p :: ps => c = p && startsL cs ps

/-- Model of `s.includes(sub)`. -/
def jsIncludes : List Char → List Char → Bool
  | [], sub => decide (sub = [])
  | c :: t, sub => startsL (c :: t) sub || jsIncludes t sub

/-- Model of `String.prototype.toLowerCase` on one ASCII character. -/
def jsToLower (c : Char) : Char :=
  if 'A' ≤ c ∧ c ≤ 'Z' then Char.ofNat (c.toNat + 32) else c

/-- Model of `String.prototype.toLowerCase` on an ASCII string. -/
def jsToLowerStr (l : List Char) : List Char :=
  l.map jsToLower

/-! ## Error model (`src`: `utils/errors.js`, `ScraperError`) -/

/-- The failure categories attached to `ScraperError` values in the source. -/
inductive ErrCat where
  | invalid
  | robots
  | network
  | timeout
  | blocked
  | processing
  | security
  | unknown
deriving DecidableEq, Repr

/-- `ScraperError`: a category plus a tag distinguishing distinct error
values (standing in for the message/URL payload). -/
structure ScraperError where
  category : ErrCat
  tag : Nat
deriving DecidableEq, Repr

/-! ## URL normalizer (`src`: `utils/url.js`, `validateUrl`)

`new URL(s)` acceptance is abstracted as a boolean predicate `parses` on the
candidate string; `validateUrl` only uses it as a pass/fail check and returns
the (un-reparsed) normalized string. -/

def httpChars : List Char := "http://".data

def httpsChars : List Char := "https://".data

/-- Model of `validateUrl` from `utils/url.js`: reject empty input, trim,
prepend `https://` when no scheme, check parseability, return the
normalized string. -/
def validateUrlM (parses : List Char → Bool) (url : List Char) :
    Except ScraperError (List Char) :=
  if url = [] then .error ⟨.invalid, 0⟩
  else
    let t := jsTrim url
    let n := if startsL t httpChars || startsL t httpsChars then t
             else httpsChars ++ t
    if parses n then .ok n else .error ⟨.invalid, 1⟩

/-! ## Politeness gate (`src`: `utils/robots.js`, `isAllowedByRobots`)

The network fetch of `{origin}/robots.txt` is modelled by a `RobotsFetch`
value; URL-path extraction (`new URL(url).pathname`) is an input. The line
scan is translated directly from the source loop. -/

/-- The possible outcomes of fetching `robots.txt`. -/
inductive RobotsFetch where
  | failed
  | notOk
  | ok (text : List Char)
deriving DecidableEq

def userAgentLabel : List Char := "user-agent:".data

def disallowLabel : List Char := "disallow:".data

/-- One step of the source's `for (const line of lines)` loop, threading the
`inUserAgentSection` flag; returns `false` as soon as a matching `Disallow`
under a wildcard block is found. -/
def robotsLoop (urlPath : List Char) : List (List Char) → Bool → Bool
  | [], _ => true
  | line :: rest, inUA =>
    let trimmed := jsTrim line
    let lower := jsToLowerStr trimmed
    let inUA' := if startsL lower userAgentLabel then jsIncludes lower ['*'] else inUA
    if inUA' && startsL lower disallowLabel then
      let disallowPath := jsTrim (trimmed.drop 9)
      if disallowPath ≠ [] && startsL urlPath disallowPath then false
      else robotsLoop urlPath rest inUA'
    else robotsLoop urlPath rest inUA'

/-- Split a text on newline characters, as `robotsTxt.split('\n')`. -/
def splitLinesChar (text : List Char) : List (List Char) :=
  text.splitOn '\n'

/-- Model of `isAllowedByRobots`: fail-open on fetch errors and non-OK
responses, otherwise run the simple wildcard-block line scan. -/
def isAllowedByRobotsM (f : RobotsFetch) (urlPath : List Char) : Bool :=
  match f with
  | .failed => true
  | .notOk => true
  | .ok text => robotsLoop urlPath (splitLinesChar text) false

/-! ## Retry controller (`src`: `utils/retry.js`, `retryWithBackoff`)

The async operation is modelled as a function from the 1-based attempt
number to its outcome, and `Math.random()` as a function from the attempt
number to a rational in `[0, 1)`. The returned trace records the final
result, the number of calls to the operation, and the sleep durations. -/

/-- The backoff wait performed after failed attempt `attempt`:
`max(base·2^(attempt-1) + (r - 0.5)·0.6·base·2^(attempt-1), base)`. -/
def backoffDelay (base : ℚ) (attempt : Nat) (r : ℚ) : ℚ :=
  let exponential := base * 2 ^ (attempt - 1)
  let jitter := (r - 1/2) * (3/5) * exponential
  max (exponential + jitter) base

/-- Observable outcome of a `retryWithBackoff` run: the value returned or the
error re-raised (`none` models the `null` initial `lastErr`), the number of
invocations of the operation, and the list of sleeps performed. -/
structure RetryTrace (ε α : Type) where
  result : Except (Option ε) α
  calls : Nat
  sleeps : List ℚ

/-- The `for (let attempt = 1; attempt <= maxRetries; attempt++)` loop:
`remaining` counts the attempts still permitted (including the current one),
`attempt` is the 1-based counter. -/
def retryGo {ε α : Type} (op : Nat → Except ε α) (base : ℚ) (rand : Nat → ℚ) :
    Nat → Nat → Option ε → RetryTrace ε α
  | 0, _, lastErr => ⟨.error lastErr, 0, []⟩
  | remaining + 1, attempt, _ =>
    match op attempt with
    | .ok a => ⟨.ok a, 1, []⟩
    | .error e =>
      if remaining = 0 then ⟨.error (some e), 1, []⟩
      else
        let rest := retryGo op base rand remaining (attempt + 1) (some e)
        ⟨rest.result, rest.calls + 1,
          backoffDelay base attempt (rand attempt) :: rest.sleeps⟩

/-- Model of `retryWithBackoff(fn, maxRetries, baseDelay)`. -/
def retryWithBackoffM {ε α : Type} (op : Nat → Except ε α) (maxRetries : Nat)
    (base : ℚ) (rand : Nat → ℚ) : RetryTrace ε α :=
  retryGo op base rand maxRetries 1 none

/-! ## In-memory result cache (`src`: `MemoryCache`)

The backing `Map` is an insertion-ordered association list with unique keys:
`mapSetA` replaces in place or appends, `mapDeleteA` removes the (unique)
occurrence, iteration order is list order. Clock readings (`Date.now()`) are
explicit `now` arguments. -/

/-- The cache entry wrapper `{data, timestamp, accessCount, lastAccess}`. -/
structure CacheEntry (α : Type) where
  data : α
  timestamp : Nat
  accessCount : Nat
  lastAccess : Nat
deriving DecidableEq, Repr

/-- The `MemoryCache` state: backing map, `maxSize`, optional `ttl`, and the
hit/miss counters. -/
structure MemoryCache (α : Type) where
  cache : List (List Char × CacheEntry α)
  maxSize : Nat
  ttl : Option Nat
  hits : Nat
  misses : Nat
deriving DecidableEq, Repr

/-- `Map.prototype.get` on the association list. -/
def mapGetA {β : Type} (k : List Char) : List (List Char × β) → Option β
  | [] => none
  | p :: t => if p.1 = k then some p.2 else mapGetA k t

/-- `Map.prototype.has`. -/
def mapHasA {β : Type} (k : List Char) (l : List (List Char × β)) : Bool :=
  (mapGetA k l).isSome

/-- `Map.prototype.set`: replace in place when the key exists (keeping its
position), otherwise append at the end. -/
def mapSetA {β : Type} (k : List Char) (v : β) :
    List (List Char × β) → List (List Char × β)
  | [] => [(k, v)]
  | p :: t => if p.1 = k then (k, v) :: t else p :: mapSetA k v t

/-- `Map.prototype.delete` (keys are unique, so removing the first
occurrence is exact). -/
def mapDeleteA {β : Type} (k : List Char) :
    List (List Char × β) → List (List Char × β)
  | [] => []
  | p :: t => if p.1 = k then t else p :: mapDeleteA k t

/-- The source's eviction scan: iterate the map keeping the first entry with
a strictly smaller `lastAccess` than the best so far (`null`/`Infinity`
initial accumulator). -/
def oldestLoop {α : Type} (l : List (List Char × CacheEntry α)) :
    Option (List Char × CacheEntry α) :=
  l.foldl
    (fun acc p =>
      match acc with
      | none => some p
      | some q => if p.2.lastAccess < q.2.lastAccess then some p else acc)
    none

/-- Model of the `MemoryCache` constructor: `maxSize = options.maxSize || 1000`
and `ttl = options.ttl || null` (so `0` falls back like `undefined`). -/
def mkMemoryCache (α : Type) (maxSizeOpt : Option Nat) (ttlOpt : Option Nat) :
    MemoryCache α :=
  { cache := []
    maxSize := match maxSizeOpt with
      | some 0 => 1000
      | some m => m
      | none => 1000
    ttl := match ttlOpt with
      | some 0 => none
      | some t => some t
      | none => none
    hits := 0
    misses := 0 }

/-- Model of `MemoryCache.get(url)` at clock reading `now`: returns the data
(or `null`) together with the updated cache state. -/
def cacheGetM {α : Type} (now : Nat) (url : List Char) (c : MemoryCache α) :
    Option α × MemoryCache α :=
  match mapGetA url c.cache with
  | none => (none, { c with misses := c.misses + 1 })
  | some entry =>
    match c.ttl with
    | some t =>
      if now - entry.timestamp > t then
        (none, { c with cache := mapDeleteA url c.cache, misses := c.misses + 1 })
      else
        (some entry.data,
          { c with
            cache := mapSetA url
              { entry with accessCount := entry.accessCount + 1, lastAccess := now }
              c.cache
            hits := c.hits + 1 })
    | none =>
      (some entry.data,
        { c with
          cache := mapSetA url
            { entry with accessCount := entry.accessCount + 1, lastAccess := now }
            c.cache
          hits := c.hits + 1 })

/-- Model of `MemoryCache.set(url, data)` at clock reading `now`: evict the
oldest-accessed entry when full and the key is new — but, as in the source,
`if (oldest)` skips the delete when the chosen key is the empty string. -/
def cacheSetM {α : Type} (now : Nat) (url : List Char) (data : α)
    (c : MemoryCache α) : MemoryCache α :=
  let base :=
    if c.cache.length ≥ c.maxSize ∧ mapHasA url c.cache = false then
      match oldestLoop c.cache with
      | some p => if p.1 = [] then c.cache else mapDeleteA p.1 c.cache
      | none => c.cache
    else c.cache
  { c with
    cache := mapSetA url ⟨data, now, 0, now⟩ base }

/-- A client-visible cache operation with its clock reading. -/
inductive CacheOp (α : Type) where
  | get (url : List Char) (now : Nat)
  | set (url : List Char) (data : α) (now : Nat)

/-- Run a sequence of cache operations, discarding `get` results. -/
def runOps {α : Type} (c : MemoryCache α) : List (CacheOp α) → MemoryCache α
  | [] => c
  | .get url now :: rest => runOps (cacheGetM now url c).2 rest
  | .set url data now :: rest => runOps (cacheSetM now url data c) rest

/-- The key a cache operation addresses. -/
def opKey {α : Type} : CacheOp α → List Char
  | .get url _ => url
  | .set url _ _ => url

/-! ## Scrape orchestrator (`src`: `processor/UnifiedScraper.js`, `scrape`)

The orchestrator's effects are recorded as an event trace in source order:
URL normalization, robots.txt check, rate-limit wait, cache lookup/write and
the two strategy attempts (each strategy attempt stands for a whole
`retryWithBackoff`-wrapped run; its per-attempt outcomes come from the
environment). -/

/-- Events of one `UnifiedScraper.scrape` run, in execution order. -/
inductive ScrapeEv where
  | normalize
  | robotsCheck
  | rateWait
  | cacheGet
  | cacheSet
  | cheerioTry
  | playwrightTry
deriving DecidableEq, Repr

/-- The constructor options of `UnifiedScraper` used by `scrape`. -/
structure ScrapeConfig where
  usePlaywright : Bool
  retries : Nat
  baseDelay : ℚ

/-- The environment of one `scrape(url)` call: the raw URL, the abstracted
`new URL` acceptance predicate, the target path seen by the robots gate, the
`robots.txt` fetch outcome, the cached value (result of `cache.get`), and
the per-attempt outcomes and jitter randomness of the two strategies. -/
structure ScrapeEnv (α : Type) where
  url : List Char
  urlParses : List Char → Bool
  urlPath : List Char
  robots : RobotsFetch
  cached : Option α
  cheerioOp : Nat → Except ScraperError α
  cheerioRand : Nat → ℚ
  playwrightOp : Nat → Except ScraperError α
  playwrightRand : Nat → ℚ

/-- Model of `UnifiedScraper.scrape`: validate, robots-check, rate-limit
wait, cache lookup, Cheerio with retries, then (only if configured)
Playwright with retries; each step appends its event. The error component
is `Option ScraperError` because `retryWithBackoff` re-throws its `null`
initial `lastErr` when given zero attempts. -/
def scrapeM {α : Type} (cfg : ScrapeConfig) (env : ScrapeEnv α) :
    Except (Option ScraperError) α × List ScrapeEv :=
  match validateUrlM env.urlParses env.url with
  | .error e => (.error (some e), [.normalize])
  | .ok _ =>
    if isAllowedByRobotsM env.robots env.urlPath = false then
      (.error (some ⟨.robots, 0⟩), [.normalize, .robotsCheck])
    else
      let pre := [ScrapeEv.normalize, .robotsCheck] ++
        (if 0 < cfg.baseDelay then [.rateWait] else [])
      match env.cached with
      | some r => (.ok r, pre ++ [.cacheGet])
      | none =>
        match (retryWithBackoffM env.cheerioOp cfg.retries cfg.baseDelay
            env.cheerioRand).result with
        | .ok r => (.ok r, pre ++ [.cacheGet, .cheerioTry, .cacheSet])
        | .error ce =>
          if cfg.usePlaywright = false then
            (.error ce, pre ++ [.cacheGet, .cheerioTry])
          else
            match (retryWithBackoffM env.playwrightOp cfg.retries cfg.baseDelay
                env.playwrightRand).result with
            | .ok r => (.ok r, pre ++ [.cacheGet, .cheerioTry, .playwrightTry, .cacheSet])
            | .error pe => (.error pe, pre ++ [.cacheGet, .cheerioTry, .playwrightTry])

/-! ## Title extraction (`src`: `helpers.js` `scrapeWebsite` and
`scrapeWebsitePlaywright`)

Both paths compute the title by the JS chain
`title || h1 || ogTitle || 'Untitled'`. Cheerio's `.text()` yields `''` when
nothing matches; `attr('content')` and Playwright's `textContent()` /
`getAttribute()` yield `undefined`/`null`, modelled as `Option`. -/

def untitledChars : List Char := "Untitled".data

/-- JS `x || y` where `x` is a string (falsy iff empty). -/
def jsOrS (x y : List Char) : List Char :=
  if x = [] then y else x

/-- JS `x || y` where `x` is a string or `undefined`/`null`. -/
def jsOrOpt (x : Option (List Char)) (y : List Char) : List Char :=
  match x with
  | none => y
  | some s => jsOrS s y

/-- Title chain of the static (Cheerio) path in `scrapeWebsite`:
`$('title').text() || $('h1').first().text() || $('meta[property="og:title"]').attr('content') || 'Untitled'`. -/
def scrapeWebsiteTitle (titleText h1Text : List Char)
    (ogTitleAttr : Option (List Char)) : List Char :=
  jsOrS titleText (jsOrS h1Text (jsOrOpt ogTitleAttr untitledChars))

/-- Title chain of the rendering (Playwright) path in
`scrapeWebsitePlaywright`: `head > title` text, else first `h1` text, else
`og:title` meta content, else `'Untitled'` (each query may yield `null`). -/
def scrapeWebsitePlaywrightTitle (titleText h1Text ogTitleAttr : Option (List Char)) :
    List Char :=
  jsOrOpt titleText (jsOrOpt h1Text (jsOrOpt ogTitleAttr untitledChars))

/-- Title computation of the `CheerioStrategy.scrape` request handler
(`lib/scraper/CheerioStrategy.js`): `$('title').text() || 'Untitled'` — with
no `<h1>` or `og:title` fallback. -/
def cheerioStrategyTitle (titleText : List Char) : List Char :=
  jsOrS titleText untitledChars

/-- Title computation of `PlaywrightStrategy.scrape`
(`lib/scraper/PlaywrightStrategy.js`): `(await page.title()) || 'Untitled'` —
with no `<h1>` or `og:title` fallback. -/
def playwrightStrategyTitle (titleText : List Char) : List Char :=
  jsOrS titleText untitledChars

/-! ## Content validation (`src`: `utils/metadata.js`, `validateContent`;
duplicated verbatim in `helpers.js`) -/

/-- The input record fields read by `validateContent` (absent fields are the
empty string after the `|| ''` defaults). -/
structure ScrapedData where
  title : List Char
  html : List Char
  text : List Char
deriving DecidableEq

def noDataMsg : List Char := "No scraped data".data

def titleMsg : List Char := "Missing meaningful title".data

def shortMsg : List Char := "Content too short (less than 100 characters)".data

def restrictionMsg : List Char := "Possible access restriction detected".data

def untitledLowerChars : List Char := "untitled".data

/-- The four access-restriction markers scanned by `validateContent`. -/
def blockedTokens : List (List Char) :=
  ["Access Denied".data, "403 Forbidden".data,
   "You don\x27t have permission".data, "Not Found".data]

/-- Model of `validateContent(scrapedData)`: collect issues for a missing
meaningful title, combined html+trimmed-text length under 100, and any
access-restriction token, then `valid = issues.length === 0`. -/
def validateContentM (sd : Option ScrapedData) : Bool × List (List Char) :=
  match sd with
  | none => (false, [noDataMsg])
  | some d =>
    let title := jsTrim d.title
    let issues₁ :=
      if title = [] ∨ jsToLowerStr title = untitledLowerChars then [titleMsg] else []
    let text := jsTrim d.text
    let issues₂ :=
      if d.html.length + text.length < 100 then [shortMsg] else []
    let issues₃ :=
      if blockedTokens.any (fun tok => jsIncludes d.html tok || jsIncludes text tok)
      then [restrictionMsg] else []
    let issues := issues₁ ++ issues₂ ++ issues₃
    (issues = [], issues)

/-! ## Concrete instances used by witnesses and counterexamples -/

/-- A robots.txt body with a wildcard block disallowing every path. -/
def robotsDenyAll : List Char := "User-agent: *\nDisallow: /".data

def c1Cfg : ScrapeConfig := ⟨true, 2, 1⟩

/-- Environment whose static strategy always fails and whose rendering
strategy succeeds with the value 42. -/
def c1Env : ScrapeEnv Nat :=
  { url := "example.com".data
    urlParses := fun _ => true
    urlPath := "/".data
    robots := .failed
    cached := none
    cheerioOp := fun _ => .error ⟨.network, 5⟩
    cheerioRand := fun _ => 0
    playwrightOp := fun _ => .ok 42
    playwrightRand := fun _ => 0 }

def c2Cfg : ScrapeConfig := ⟨false, 1, 1⟩

/-- Environment with a cache hit (cached value 7) and positive base delay. -/
def c2Env : ScrapeEnv Nat :=
  { url := "example.com".data
    urlParses := fun _ => true
    urlPath := "/".data
    robots := .failed
    cached := some 7
    cheerioOp := fun _ => .error ⟨.network, 5⟩
    cheerioRand := fun _ => 0
    playwrightOp := fun _ => .ok 42
    playwrightRand := fun _ => 0 }

def c4Cfg : ScrapeConfig := ⟨true, 2, 1⟩

/-- Environment whose robots.txt wildcard block disallows the target path. -/
def c4Env : ScrapeEnv Nat :=
  { url := "example.com/post".data
    urlParses := fun _ => true
    urlPath := "/post".data
    robots := .ok robotsDenyAll
    cached := some 7
    cheerioOp := fun _ => .ok 42
    cheerioRand := fun _ => 0
    playwrightOp := fun _ => .ok 42
    playwrightRand := fun _ => 0 }

/-- A two-entry cache at capacity 2 whose key `b` entry is least recently
accessed (`lastAccess` 3 versus 5). -/
def c5Cache : MemoryCache Nat :=
  ⟨[("a".data, ⟨10, 0, 0, 5⟩), ("b".data, ⟨20, 0, 0, 3⟩)], 2, none, 0, 0⟩

/-- A one-entry cache at capacity 2 holding key `a`. -/
def c10Cache : MemoryCache Nat :=
  ⟨[("a".data, ⟨5, 0, 0, 0⟩)], 2, none, 0, 0⟩

/-- A record with a real title and a 200-character body free of
access-restriction markers. -/
def c9GoodData : ScrapedData :=
  ⟨"Hello World".data, List.replicate 200 'a', "Long enough".data⟩

/-- A record with the `Untitled` sentinel and under 100 combined characters. -/
def c9BadData : ScrapedData := ⟨"Untitled".data, "<p>Hi</p>".data, "Hi".data⟩

/-- A record with a real title and a 200-character body that contains the
`Not Found` access-restriction marker. -/
def c9CexData : ScrapedData :=
  ⟨"Report".data, "Not Found".data ++ List.replicate 191 'a', []⟩

/-! ## Helper lemmas: retry controller -/

theorem retryGo_zero {ε α : Type} (op : Nat → Except ε α) (base : ℚ)
    (rand : Nat → ℚ) (attempt : Nat) (last : Option ε) :
    retryGo op base rand 0 attempt last = ⟨.error last, 0, []⟩ := rfl

theorem retryGo_succ {ε α : Type} (op : Nat → Except ε α) (base : ℚ)
    (rand : Nat → ℚ) (r attempt : Nat) (last : Option ε) :
    retryGo op base rand (r + 1) attempt last =
      match op attempt with
      | .ok a => ⟨.ok a, 1, []⟩
      | .error e =>
        if r = 0 then ⟨.error (some e), 1, []⟩
        else
          let rest := retryGo op base rand r (attempt + 1) (some e)
          ⟨rest.result, rest.calls + 1,
            backoffDelay base attempt (rand attempt) :: rest.sleeps⟩ := rfl

theorem retryGo_all_fail {ε α : Type} (op : Nat → Except ε α) (base : ℚ)
    (rand : Nat → ℚ) (ef : Nat → ε) (hop : ∀ n, op n = .error (ef n)) :
    ∀ remaining attempt last, 1 ≤ remaining →
      (retryGo op base rand remaining attempt last).result
          = .error (some (ef (attempt + remaining - 1))) ∧
        (retryGo op base rand remaining attempt last).calls = remaining := by
  intro remaining
  induction remaining with
  | zero => intro attempt last h; omega
  | succ r ih =>
    intro attempt last _
    rw [retryGo_succ, hop attempt]
    by_cases hr : r = 0
    · subst hr
      simp
    · have hr1 : 1 ≤ r := Nat.one_le_iff_ne_zero.mpr hr
      have := ih (attempt + 1) (some (ef attempt)) hr1
      simp only [if_neg hr]
      refine ⟨?_, ?_⟩
      · show (retryGo op base rand r (attempt + 1) (some (ef attempt))).result = _
        rw [this.1]
        have harg : attempt + 1 + r - 1 = attempt + (r + 1) - 1 := by omega
        rw [harg]
      · show (retryGo op base rand r (attempt + 1) (some (ef attempt))).calls + 1 = r + 1
        rw [this.2]

theorem retryGo_succeeds {ε α : Type} (op : Nat → Except ε α) (base : ℚ)
    (rand : Nat → ℚ) (a : α) :
    ∀ j remaining attempt last,
      (∀ n, attempt ≤ n → n < attempt + j → ∃ e, op n = .error e) →
      op (attempt + j) = .ok a → j < remaining →
      (retryGo op base rand remaining attempt last).result = .ok a ∧
        (retryGo op base rand remaining attempt last).calls = j + 1 := by
  intro j
  induction j with
  | zero =>
    intro remaining attempt last _ hsucc hlt
    obtain ⟨r, rfl⟩ : ∃ r, remaining = r + 1 := ⟨remaining - 1, by omega⟩
    rw [retryGo_succ, show op attempt = .ok a from by simpa using hsucc]
    simp
  | succ j ih =>
    intro remaining attempt last hfail hsucc hlt
    obtain ⟨r, rfl⟩ : ∃ r, remaining = r + 1 := ⟨remaining - 1, by omega⟩
    obtain ⟨e, he⟩ := hfail attempt (le_refl _) (by omega)
    rw [retryGo_succ, he]
    have hr : r ≠ 0 := by omega
    have := ih r (attempt + 1) (some e)
      (fun n h1 h2 => hfail n (by omega) (by omega))
      (by rw [show attempt + 1 + j = attempt + (j + 1) from by omega]; exact hsucc)
      (by omega)
    simp only [if_neg hr]
    exact ⟨this.1, by simp [this.2]⟩

theorem retryGo_calls_sleeps {ε α : Type} (op : Nat → Except ε α) (base : ℚ)
    (rand : Nat → ℚ) :
    ∀ remaining attempt last, 1 ≤ remaining →
      (retryGo op base rand remaining attempt last).calls
        = (retryGo op base rand remaining attempt last).sleeps.length + 1 := by
  intro remaining
  induction remaining with
  | zero => intro _ _ h; omega
  | succ r ih =>
    intro attempt last _
    rw [retryGo_succ]
    cases hop : op attempt with
    | ok a => simp
    | error e =>
      by_cases hr : r = 0
      · subst hr; simp
      · simp only [if_neg hr]
        have := ih (attempt + 1) (some e) (Nat.one_le_iff_ne_zero.mpr hr)
        simp [this]

theorem retryGo_sleep_values {ε α : Type} (op : Nat → Except ε α) (base : ℚ)
    (rand : Nat → ℚ) :
    ∀ remaining attempt last i d,
      (retryGo op base rand remaining attempt last).sleeps.get? i = some d →
      d = backoffDelay base (attempt + i) (rand (attempt + i)) := by
  intro remaining
  induction remaining with
  | zero => intro attempt last i d h; rw [retryGo_zero] at h; simp at h
  | succ r ih =>
    intro attempt last i d h
    rw [retryGo_succ] at h
    cases hop : op attempt with
    | ok a => rw [hop] at h; simp at h
    | error e =>
      rw [hop] at h
      by_cases hr : r = 0
      · subst hr; simp at h
      · simp only [if_neg hr] at h
        cases i with
        | zero =>
          simp only [List.get?] at h
          have hd : d = backoffDelay base attempt (rand attempt) := by
            simpa using h.symm
          simp [hd]
        | succ i =>
          have := ih (attempt + 1) (some e) i d (by simpa using h)
          rw [this]
          have harg : attempt + 1 + i = attempt + (i + 1) := by omega
          rw [harg]

theorem backoffDelay_bounds (base r : ℚ) (n : Nat) (hb : 0 < base)
    (h0 : 0 ≤ r) (h1 : r < 1) :
    base ≤ backoffDelay base n r ∧
      (7/10) * (base * 2 ^ (n - 1)) ≤ backoffDelay base n r ∧
      backoffDelay base n r ≤ (13/10) * (base * 2 ^ (n - 1)) := by
  have hpow : (1:ℚ) ≤ 2 ^ (n - 1) := one_le_pow₀ one_le_two
  have he : 0 < base * 2 ^ (n - 1) := by positivity
  have hbe : base ≤ base * 2 ^ (n - 1) := by nlinarith
  unfold backoffDelay
  refine ⟨le_max_right _ _, ?_, ?_⟩
  · refine le_trans ?_ (le_max_left _ _)
    nlinarith
  · refine max_le ?_ ?_
    · nlinarith
    · nlinarith

/-! ## Claim theorems -/

/-- C3. The retry controller: an operation failing `k` times then succeeding,
with `maxAttempts > k`, yields the success value after exactly `k + 1`
invocations; an always-failing operation is invoked exactly `maxAttempts`
times and the final attempt's error is re-raised unchanged. -/
theorem retry_success_and_exhaustion {ε α : Type}
    (op : Nat → Except ε α) (k maxAttempts : Nat) (base : ℚ) (rand : Nat → ℚ)
    (a : α)
    (hfail : ∀ n, 1 ≤ n → n ≤ k → ∃ e, op n = .error e)
    (hsucc : op (k + 1) = .ok a)
    (hmax : k < maxAttempts)
    (op' : Nat → Except ε α) (maxAttempts' : Nat) (base' : ℚ) (rand' : Nat → ℚ)
    (ef : Nat → ε)
    (hall : ∀ n, op' n = .error (ef n))
    (hmax' : 1 ≤ maxAttempts') :
    (retryWithBackoffM op maxAttempts base rand).result = .ok a ∧
      (retryWithBackoffM op maxAttempts base rand).calls = k + 1 ∧
      (retryWithBackoffM op' maxAttempts' base' rand').result
        = .error (some (ef maxAttempts')) ∧
      (retryWithBackoffM op' maxAttempts' base' rand').calls = maxAttempts' := by
  have h₁ := retryGo_succeeds op base rand a k maxAttempts 1 none
    (fun n hn1 hn2 => hfail n hn1 (by omega))
    (by rw [show 1 + k = k + 1 from by omega]; exact hsucc)
    hmax
  have h₂ := retryGo_all_fail op' base' rand' ef hall maxAttempts' 1 none hmax'
  refine ⟨h₁.1, h₁.2, ?_, h₂.2⟩
  rw [retryWithBackoffM, h₂.1]
  rw [show 1 + maxAttempts' - 1 = maxAttempts' from by omega]

/-- C3 witness: an operation failing twice then succeeding with 5 attempts
allowed, and an always-failing operation with 3 attempts. -/
theorem retry_success_and_exhaustion_witness :
    (∀ n, 1 ≤ n → n ≤ 2 →
      ∃ e, (fun m => if m ≤ 2 then (.error (⟨.network, m⟩ : ScraperError) : Except ScraperError Nat) else .ok 7) n = .error e) ∧
    (fun m => if m ≤ 2 then (.error (⟨.network, m⟩ : ScraperError) : Except ScraperError Nat) else .ok 7) (2 + 1) = .ok 7 ∧
    2 < 5 ∧
    (∀ n, (fun m => (.error (⟨.timeout, m⟩ : ScraperError) : Except ScraperError Nat)) n
      = .error (⟨.timeout, n⟩ : ScraperError)) ∧
    1 ≤ 3 ∧
    (retryWithBackoffM
        (fun m => if m ≤ 2 then (.error (⟨.network, m⟩ : ScraperError) : Except ScraperError Nat) else .ok 7)
        5 1 (fun _ => 0)).result = .ok 7 ∧
      (retryWithBackoffM
        (fun m => if m ≤ 2 then (.error (⟨.network, m⟩ : ScraperError) : Except ScraperError Nat) else .ok 7)
        5 1 (fun _ => 0)).calls = 2 + 1 ∧
      (retryWithBackoffM
        (fun m => (.error (⟨.timeout, m⟩ : ScraperError) : Except ScraperError Nat))
        3 2 (fun _ => 0)).result = .error (some ⟨.timeout, 3⟩) ∧
      (retryWithBackoffM
        (fun m => (.error (⟨.timeout, m⟩ : ScraperError) : Except ScraperError Nat))
        3 2 (fun _ => 0)).calls = 3 :=
  ⟨fun n h1 h2 => ⟨⟨.network, n⟩, by simp [show n ≤ 2 from h2]⟩,
   by norm_num,
   by norm_num,
   fun n => rfl,
   by norm_num,
   retry_success_and_exhaustion
     (fun m => if m ≤ 2 then (.error (⟨.network, m⟩ : ScraperError) : Except ScraperError Nat) else .ok 7)
     2 5 1 (fun _ => 0) 7
     (fun n h1 h2 => ⟨⟨.network, n⟩, by simp [show n ≤ 2 from h2]⟩)
     (by norm_num)
     (by norm_num)
     (fun m => (.error (⟨.timeout, m⟩ : ScraperError) : Except ScraperError Nat))
     3 2 (fun _ => 0) (fun m => ⟨.timeout, m⟩)
     (fun n => rfl)
     (by norm_num)⟩

/-- C6. Every backoff wait after attempt `n` lies within ±30% of
`baseDelay · 2^(n-1)` and is at least `baseDelay` (hence positive); the
number of operation calls in a run exceeds the number of sleeps by exactly
one, so no wait follows the final attempt; and the `i`-th sleep of a run is
exactly the backoff formula for attempt `i + 1`. -/
theorem retry_backoff_delay_bounds {ε α : Type} (base r : ℚ) (n : Nat)
    (op : Nat → Except ε α) (maxAttempts : Nat) (rand : Nat → ℚ)
    (hb : 0 < base) (h0 : 0 ≤ r) (h1 : r < 1) (hn : 1 ≤ n)
    (hmax : 1 ≤ maxAttempts) :
    base ≤ backoffDelay base n r ∧
      0 < backoffDelay base n r ∧
      (7/10) * (base * 2 ^ (n - 1)) ≤ backoffDelay base n r ∧
      backoffDelay base n r ≤ (13/10) * (base * 2 ^ (n - 1)) ∧
      (retryWithBackoffM op maxAttempts base rand).calls
        = (retryWithBackoffM op maxAttempts base rand).sleeps.length + 1 ∧
      (∀ i d, (retryWithBackoffM op maxAttempts base rand).sleeps.get? i = some d →
        d = backoffDelay base (i + 1) (rand (i + 1))) := by
  obtain ⟨hA, hB, hC⟩ := backoffDelay_bounds base r n hb h0 h1
  refine ⟨hA, lt_of_lt_of_le hb hA, hB, hC, ?_, ?_⟩
  · exact retryGo_calls_sleeps op base rand maxAttempts 1 none hmax
  · intro i d hd
    have := retryGo_sleep_values op base rand maxAttempts 1 none i d hd
    rw [this]
    have harg : 1 + i = i + 1 := by omega
    rw [harg]

/-- C6 witness: base delay 1, attempt 2, jitter randomness 0, and a
two-attempt always-failing run whose single sleep is `7/5`. -/
theorem retry_backoff_delay_bounds_witness :
    (0 : ℚ) < 1 ∧ (0 : ℚ) ≤ 0 ∧ (0 : ℚ) < 1 ∧ 1 ≤ 2 ∧
    ((1 : ℚ) ≤ backoffDelay 1 2 0 ∧
      0 < backoffDelay 1 2 0 ∧
      (7/10) * ((1 : ℚ) * 2 ^ (2 - 1)) ≤ backoffDelay 1 2 0 ∧
      backoffDelay 1 2 0 ≤ (13/10) * ((1 : ℚ) * 2 ^ (2 - 1)) ∧
      (retryWithBackoffM
          (fun m => (.error (⟨.network, m⟩ : ScraperError) : Except ScraperError Nat))
          2 1 (fun _ => 0)).calls
        = (retryWithBackoffM
          (fun m => (.error (⟨.network, m⟩ : ScraperError) : Except ScraperError Nat))
          2 1 (fun _ => 0)).sleeps.length + 1 ∧
      (∀ i d, (retryWithBackoffM
          (fun m => (.error (⟨.network, m⟩ : ScraperError) : Except ScraperError Nat))
          2 1 (fun _ => 0)).sleeps.get? i = some d →
        d = backoffDelay 1 (i + 1) ((fun _ => (0:ℚ)) (i + 1)))) :=
  ⟨by norm_num, le_refl 0, by norm_num, by norm_num,
   retry_backoff_delay_bounds 1 0 2
     (fun m => (.error (⟨.network, m⟩ : ScraperError) : Except ScraperError Nat))
     2 (fun _ => 0)
     (by norm_num) (le_refl 0) (by norm_num) (by norm_num) (by norm_num)⟩

/-- C1. When the static (Cheerio) attempt fails after all retries, the
orchestrator attempts the rendering (Playwright) strategy iff
`usePlaywright` is set: without it, `scrape` fails with the static path's
error; with it, the overall outcome is exactly the rendering retry-run's
outcome (its success value, or terminally its error). -/
theorem scrape_static_fallback_iff {α : Type} (cfg : ScrapeConfig)
    (env : ScrapeEnv α) (nurl : List Char) (ce : Option ScraperError)
    (hv : validateUrlM env.urlParses env.url = .ok nurl)
    (hr : isAllowedByRobotsM env.robots env.urlPath = true)
    (hc : env.cached = none)
    (hf : (retryWithBackoffM env.cheerioOp cfg.retries cfg.baseDelay
        env.cheerioRand).result = .error ce) :
    (cfg.usePlaywright = false →
      (scrapeM cfg env).1 = .error ce ∧
        ScrapeEv.playwrightTry ∉ (scrapeM cfg env).2) ∧
    (cfg.usePlaywright = true →
      ScrapeEv.playwrightTry ∈ (scrapeM cfg env).2 ∧
        (scrapeM cfg env).1 = (retryWithBackoffM env.playwrightOp cfg.retries
          cfg.baseDelay env.playwrightRand).result) := by
  constructor
  · intro hp
    simp only [scrapeM, hv, hr, hc, hf, hp]
    by_cases hd : 0 < cfg.baseDelay <;> simp [hd]
  · intro hp
    simp only [scrapeM, hv, hr, hc, hf, hp]
    cases hpw : (retryWithBackoffM env.playwrightOp cfg.retries cfg.baseDelay
        env.playwrightRand).result with
    | ok r => by_cases hd : 0 < cfg.baseDelay <;> simp [hd]
    | error pe => by_cases hd : 0 < cfg.baseDelay <;> simp [hd]

/-- C1 witness: with rendering configured, an always-failing static strategy
and a succeeding rendering strategy, `scrape` returns the rendering value. -/
theorem scrape_static_fallback_iff_witness :
    validateUrlM c1Env.urlParses c1Env.url = .ok ("https://example.com".data) ∧
    isAllowedByRobotsM c1Env.robots c1Env.urlPath = true ∧
    c1Env.cached = none ∧
    (retryWithBackoffM c1Env.cheerioOp c1Cfg.retries c1Cfg.baseDelay
      c1Env.cheerioRand).result = .error (some ⟨.network, 5⟩) ∧
    ((c1Cfg.usePlaywright = false →
      (scrapeM c1Cfg c1Env).1 = .error (some ⟨.network, 5⟩) ∧
        ScrapeEv.playwrightTry ∉ (scrapeM c1Cfg c1Env).2) ∧
    (c1Cfg.usePlaywright = true →
      ScrapeEv.playwrightTry ∈ (scrapeM c1Cfg c1Env).2 ∧
        (scrapeM c1Cfg c1Env).1 = (retryWithBackoffM c1Env.playwrightOp
          c1Cfg.retries c1Cfg.baseDelay c1Env.playwrightRand).result)) :=
  ⟨rfl, rfl, rfl, rfl,
   scrape_static_fallback_iff c1Cfg c1Env ("https://example.com".data)
     (some ⟨.network, 5⟩) rfl rfl rfl rfl⟩

/-- C2 counterexample: a run with a cache hit (cached value 7) and a positive
base delay still performs the rate-limit wait, and the wait precedes the
cache lookup — contradicting the claimed `CACHE_LOOKUP` before
`RATE_LIMIT_WAIT` order and the claim that a cache hit never incurs the
wait. -/
theorem scrape_rate_wait_on_cache_hit_cex :
    c2Env.cached = some 7 ∧
    (scrapeM c2Cfg c2Env).1 = .ok 7 ∧
    ScrapeEv.rateWait ∈ (scrapeM c2Cfg c2Env).2 ∧
    (scrapeM c2Cfg c2Env).2
      = [.normalize, .robotsCheck, .rateWait, .cacheGet] :=
  ⟨rfl, rfl, by decide, by decide⟩

/-- C2 amended. The orchestrator's actual order is: normalize, politeness
check, rate-limit wait (whenever `baseDelay > 0`), then cache lookup; on a
cache hit it returns the cached record immediately after the lookup (no
strategy attempt, no cache write), but the rate-limit wait has already
happened by then. -/
theorem scrape_order_amended {α : Type} (cfg : ScrapeConfig)
    (env : ScrapeEnv α) (nurl : List Char) (r : α)
    (hv : validateUrlM env.urlParses env.url = .ok nurl)
    (hr : isAllowedByRobotsM env.robots env.urlPath = true)
    (hc : env.cached = some r) :
    scrapeM cfg env =
      (.ok r, [ScrapeEv.normalize, .robotsCheck] ++
        (if 0 < cfg.baseDelay then [.rateWait] else []) ++ [.cacheGet]) := by
  simp only [scrapeM, hv, hr, hc]
  simp

/-- C2 witness: the amended order at the concrete cache-hit environment. -/
theorem scrape_order_amended_witness :
    validateUrlM c2Env.urlParses c2Env.url = .ok ("https://example.com".data) ∧
    isAllowedByRobotsM c2Env.robots c2Env.urlPath = true ∧
    c2Env.cached = some 7 ∧
    scrapeM c2Cfg c2Env =
      (.ok 7, [ScrapeEv.normalize, .robotsCheck] ++
        (if 0 < c2Cfg.baseDelay then [.rateWait] else []) ++ [.cacheGet]) :=
  ⟨rfl, rfl, rfl,
   scrape_order_amended c2Cfg c2Env ("https://example.com".data) 7 rfl rfl rfl⟩

/-- C4. When robots.txt disallows the target path, `scrape` fails with
category `robots` and its trace is exactly normalize-then-robots-check: no
strategy runs and the cache is neither consulted nor written. -/
theorem scrape_robots_disallow_terminal {α : Type} (cfg : ScrapeConfig)
    (env : ScrapeEnv α) (nurl : List Char)
    (hv : validateUrlM env.urlParses env.url = .ok nurl)
    (hrob : isAllowedByRobotsM env.robots env.urlPath = false) :
    (scrapeM cfg env).1 = .error (some ⟨.robots, 0⟩) ∧
    (scrapeM cfg env).2 = [.normalize, .robotsCheck] ∧
    ScrapeEv.cheerioTry ∉ (scrapeM cfg env).2 ∧
    ScrapeEv.playwrightTry ∉ (scrapeM cfg env).2 ∧
    ScrapeEv.cacheGet ∉ (scrapeM cfg env).2 ∧
    ScrapeEv.cacheSet ∉ (scrapeM cfg env).2 := by
  simp only [scrapeM, hv, hrob]
  simp

/-- C4 witness: `User-agent: *` / `Disallow: /` rejects `/post` with
category `robots` before any strategy or cache event. -/
theorem scrape_robots_disallow_terminal_witness :
    validateUrlM c4Env.urlParses c4Env.url = .ok ("https://example.com/post".data) ∧
    isAllowedByRobotsM c4Env.robots c4Env.urlPath = false ∧
    ((scrapeM c4Cfg c4Env).1 = .error (some ⟨.robots, 0⟩) ∧
    (scrapeM c4Cfg c4Env).2 = [.normalize, .robotsCheck] ∧
    ScrapeEv.cheerioTry ∉ (scrapeM c4Cfg c4Env).2 ∧
    ScrapeEv.playwrightTry ∉ (scrapeM c4Cfg c4Env).2 ∧
    ScrapeEv.cacheGet ∉ (scrapeM c4Cfg c4Env).2 ∧
    ScrapeEv.cacheSet ∉ (scrapeM c4Cfg c4Env).2) :=
  ⟨rfl, rfl,
   scrape_robots_disallow_terminal c4Cfg c4Env ("https://example.com/post".data)
     rfl rfl⟩

/-! ## Helper lemmas: JS string trimming and the URL normalizer -/

theorem dropWhile_self_idem {α : Type} (p : α → Bool) (l : List α) :
    (l.dropWhile p).dropWhile p = l.dropWhile p := by
  induction l with
  | nil => rfl
  | cons a t ih =>
    by_cases h : p a
    · simp [List.dropWhile_cons, h, ih]
    · simp [List.dropWhile_cons, h]

theorem trimR_cons_eq (c : Char) (cs : List Char) :
    trimR (c :: cs) =
      match trimR cs with
      | [] => if isJsWs c then [] else [c]
      | r => c :: r := rfl

theorem trimR_cons_cases (c : Char) (cs : List Char) :
    trimR (c :: cs) = [] ∨ ∃ r, trimR (c :: cs) = c :: r := by
  rw [trimR_cons_eq]
  cases h : trimR cs with
  | nil =>
    by_cases hw : isJsWs c
    · left; simp [hw]
    · right; exact ⟨[], by simp [hw]⟩
  | cons x xs => right; exact ⟨x :: xs, rfl⟩

theorem trimR_idem (l : List Char) : trimR (trimR l) = trimR l := by
  induction l with
  | nil => rfl
  | cons c cs ih =>
    cases h : trimR cs with
    | nil =>
      rw [trimR_cons_eq, h]
      by_cases hw : isJsWs c
      · simp [hw, trimR]
      · simp only [hw, if_false, Bool.false_eq_true]
        show trimR [c] = [c]
        rw [trimR_cons_eq]
        simp [trimR, hw]
    | cons x xs =>
      have hx : trimR (x :: xs) = x :: xs := by rw [← h]; exact h ▸ ih
      have h1 : trimR (c :: cs) = c :: x :: xs := by rw [trimR_cons_eq, h]
      rw [h1, trimR_cons_eq, hx]

theorem dropWhileLenLe {α : Type} (p : α → Bool) (l : List α) :
    (l.dropWhile p).length ≤ l.length := by
  induction l with
  | nil => simp
  | cons a t ih =>
    by_cases h : p a
    · simp only [List.dropWhile_cons, h, if_true]
      exact le_trans ih (Nat.le_succ t.length)
    · simp [List.dropWhile_cons, h]

theorem dropWhile_trimR (l : List Char) (h : l.dropWhile isJsWs = l) :
    (trimR l).dropWhile isJsWs = trimR l := by
  cases l with
  | nil => rfl
  | cons c cs =>
    have hc : isJsWs c = false := by
      by_contra hcc
      have hcc' : isJsWs c = true := by
        cases hcv : isJsWs c
        · exact absurd hcv hcc
        · rfl
      rw [List.dropWhile_cons, hcc'] at h
      have := dropWhileLenLe isJsWs cs
      have := congrArg List.length h
      simp at this
      omega
    rcases trimR_cons_cases c cs with h0 | ⟨r, hr⟩
    · rw [h0]; rfl
    · rw [hr]; simp [List.dropWhile_cons, hc]

theorem jsTrim_idem (l : List Char) : jsTrim (jsTrim l) = jsTrim l := by
  show trimR ((trimR (l.dropWhile isJsWs)).dropWhile isJsWs)
    = trimR (l.dropWhile isJsWs)
  rw [dropWhile_trimR _ (dropWhile_self_idem isJsWs l), trimR_idem]

theorem trimR_append_right (l t : List Char) (ht : trimR t = t) (hne : t ≠ []) :
    trimR (l ++ t) = l ++ t := by
  induction l with
  | nil => simpa using ht
  | cons c l' ih =>
    rw [List.cons_append, trimR_cons_eq, ih]
    cases ht' : l' ++ t with
    | nil => exact absurd (List.append_eq_nil.mp ht').2 hne
    | cons x xs => rfl

theorem startsL_append_self (p t : List Char) : startsL (p ++ t) p = true := by
  induction p with
  | nil => cases t <;> rfl
  | cons c ps ih =>
    show (c = c && startsL (ps ++ t) ps) = true
    simp [ih]

theorem dropWhile_https_append (t : List Char) :
    (httpsChars ++ t).dropWhile isJsWs = httpsChars ++ t := rfl

theorem validateUrlM_of_fixed (parses : List Char → Bool) (r : List Char)
    (hne : r ≠ []) (hj : jsTrim r = r)
    (hcond : (startsL r httpChars || startsL r httpsChars) = true)
    (hp : parses r = true) : validateUrlM parses r = .ok r := by
  unfold validateUrlM
  rw [if_neg hne]
  simp [hj, hcond, hp]

theorem validateUrlM_ok_inv (parses : List Char → Bool) (u r : List Char)
    (h : validateUrlM parses u = .ok r) :
    parses r = true ∧
      ((startsL (jsTrim u) httpChars || startsL (jsTrim u) httpsChars) = true
          ∧ r = jsTrim u
        ∨ (startsL (jsTrim u) httpChars || startsL (jsTrim u) httpsChars) = false
          ∧ r = httpsChars ++ jsTrim u) := by
  unfold validateUrlM at h
  by_cases hu : u = []
  · rw [if_pos hu] at h
    exact absurd h (by simp)
  · rw [if_neg hu] at h
    cases hcb : (startsL (jsTrim u) httpChars || startsL (jsTrim u) httpsChars) with
    | false =>
      simp only [hcb] at h
      cases hp : parses (httpsChars ++ jsTrim u) with
      | false => simp [hp] at h
      | true =>
        simp [hp] at h
        exact ⟨h ▸ hp, Or.inr ⟨rfl, h.symm⟩⟩
    | true =>
      simp only [hcb] at h
      cases hp : parses (jsTrim u) with
      | false => simp [hp] at h
      | true =>
        simp [hp] at h
        exact ⟨h ▸ hp, Or.inl ⟨rfl, h.symm⟩⟩

/-- C7. URL normalization is idempotent on accepted inputs, and when the
trimmed input lacks an `http://`/`https://` scheme the accepted output is
exactly `https://` prepended once to the trimmed input. -/
theorem validateUrl_idempotent_https (parses : List Char → Bool)
    (u r : List Char) (h : validateUrlM parses u = .ok r) :
    validateUrlM parses r = .ok r ∧
      (startsL (jsTrim u) httpChars = false →
        startsL (jsTrim u) httpsChars = false →
        r = httpsChars ++ jsTrim u) := by
  obtain ⟨hp, hcase⟩ := validateUrlM_ok_inv parses u r h
  rcases hcase with ⟨hc, rfl⟩ | ⟨hc, rfl⟩
  · refine ⟨?_, ?_⟩
    · apply validateUrlM_of_fixed _ _ ?_ (jsTrim_idem u) hc hp
      intro h0
      rw [h0] at hc
      exact absurd hc (by decide)
    · intro h1 h2
      rw [h1, h2] at hc
      exact absurd hc (by decide)
  · have ht : trimR (jsTrim u) = jsTrim u := trimR_idem _
    have hj : jsTrim (httpsChars ++ jsTrim u) = httpsChars ++ jsTrim u := by
      show trimR ((httpsChars ++ jsTrim u).dropWhile isJsWs) = _
      rw [dropWhile_https_append]
      by_cases ht0 : jsTrim u = []
      · rw [ht0]; rfl
      · exact trimR_append_right _ _ ht ht0
    refine ⟨?_, fun _ _ => rfl⟩
    apply validateUrlM_of_fixed _ _ ?_ hj ?_ hp
    · simp [httpsChars]
    · rw [startsL_append_self]
      simp

/-- C7 witness: `example.com` normalizes to `https://example.com`, which
re-normalizes to itself. -/
theorem validateUrl_idempotent_https_witness :
    validateUrlM (fun _ => true) ("example.com".data)
        = .ok ("https://example.com".data) ∧
      (validateUrlM (fun _ => true) ("https://example.com".data)
          = .ok ("https://example.com".data) ∧
        (startsL (jsTrim ("example.com".data)) httpChars = false →
          startsL (jsTrim ("example.com".data)) httpsChars = false →
          ("https://example.com".data) = httpsChars ++ jsTrim ("example.com".data))) :=
  ⟨rfl, validateUrl_idempotent_https (fun _ => true) ("example.com".data)
    ("https://example.com".data) rfl⟩

/-! ## Helper lemmas: association-list map and cache -/

theorem mapGetA_mapSetA_self {β : Type} (k : List Char) (v : β)
    (l : List (List Char × β)) : mapGetA k (mapSetA k v l) = some v := by
  induction l with
  | nil => simp [mapSetA, mapGetA]
  | cons p t ih =>
    by_cases h : p.1 = k
    · simp [mapSetA, h, mapGetA]
    · simp [mapSetA, h, mapGetA, ih]

theorem mapGetA_mem {β : Type} (k : List Char) (v : β)
    (l : List (List Char × β)) (h : mapGetA k l = some v) : (k, v) ∈ l := by
  induction l with
  | nil => simp [mapGetA] at h
  | cons p t ih =>
    by_cases hp : p.1 = k
    · simp only [mapGetA, hp, if_pos] at h
      have hpkv : p = (k, v) := by
        obtain ⟨p1, p2⟩ := p
        simp only at hp h
        injection h with h2
        rw [hp, h2]
      rw [← hpkv]
      exact List.mem_cons_self _ _
    · simp only [mapGetA, hp, if_neg, if_false] at h
      exact List.mem_cons_of_mem _ (ih h)

theorem mem_mapHasA {β : Type} (p : List Char × β) (l : List (List Char × β))
    (h : p ∈ l) : mapHasA p.1 l = true := by
  induction l with
  | nil => simp at h
  | cons q t ih =>
    rcases List.mem_cons.mp h with rfl | hm
    · simp [mapHasA, mapGetA]
    · by_cases hq : q.1 = p.1
      · simp [mapHasA, mapGetA, hq]
      · simpa [mapHasA, mapGetA, hq] using ih hm

theorem mapSetA_length_of_has {β : Type} (k : List Char) (v : β)
    (l : List (List Char × β)) (h : mapHasA k l = true) :
    (mapSetA k v l).length = l.length := by
  induction l with
  | nil => simp [mapHasA, mapGetA] at h
  | cons p t ih =>
    by_cases hp : p.1 = k
    · simp [mapSetA, hp]
    · simp only [mapHasA, mapGetA, hp, if_neg, if_false] at h
      simp [mapSetA, hp, ih h]

theorem mapSetA_length_of_not_has {β : Type} (k : List Char) (v : β)
    (l : List (List Char × β)) (h : mapHasA k l = false) :
    (mapSetA k v l).length = l.length + 1 := by
  induction l with
  | nil => rfl
  | cons p t ih =>
    by_cases hp : p.1 = k
    · simp [mapHasA, mapGetA, hp] at h
    · simp only [mapHasA, mapGetA, hp, if_neg, if_false] at h
      simp [mapSetA, hp, ih h]

theorem mapDeleteA_length_of_has {β : Type} (k : List Char)
    (l : List (List Char × β)) (h : mapHasA k l = true) :
    (mapDeleteA k l).length + 1 = l.length := by
  induction l with
  | nil => simp [mapHasA, mapGetA] at h
  | cons p t ih =>
    by_cases hp : p.1 = k
    · simp [mapDeleteA, hp]
    · simp only [mapHasA, mapGetA, hp, if_neg, if_false] at h
      simp only [mapDeleteA, hp, if_neg, if_false, List.length_cons]
      have := ih h
      omega

theorem mapDeleteA_length_le {β : Type} (k : List Char)
    (l : List (List Char × β)) : (mapDeleteA k l).length ≤ l.length := by
  induction l with
  | nil => simp [mapDeleteA]
  | cons p t ih =>
    by_cases hp : p.1 = k
    · simp [mapDeleteA, hp]
    · simp only [mapDeleteA, hp, if_neg, if_false, List.length_cons]
      omega

theorem mem_of_mem_mapSetA {β : Type} (k : List Char) (v : β)
    (l : List (List Char × β)) (p : List Char × β) (h : p ∈ mapSetA k v l) :
    p = (k, v) ∨ p ∈ l := by
  induction l with
  | nil => simpa [mapSetA] using h
  | cons q t ih =>
    by_cases hq : q.1 = k
    · simp only [mapSetA, hq, if_pos] at h
      rcases List.mem_cons.mp h with rfl | hm
      · exact Or.inl rfl
      · exact Or.inr (List.mem_cons_of_mem _ hm)
    · simp only [mapSetA, hq, if_neg, if_false] at h
      rcases List.mem_cons.mp h with rfl | hm
      · exact Or.inr (List.mem_cons_self _ _)
      · rcases ih hm with h1 | h1
        · exact Or.inl h1
        · exact Or.inr (List.mem_cons_of_mem _ h1)

theorem mem_of_mem_mapDeleteA {β : Type} (k : List Char)
    (l : List (List Char × β)) (p : List Char × β) (h : p ∈ mapDeleteA k l) :
    p ∈ l := by
  induction l with
  | nil => simpa [mapDeleteA] using h
  | cons q t ih =>
    by_cases hq : q.1 = k
    · simp only [mapDeleteA, hq, if_pos] at h
      exact List.mem_cons_of_mem _ h
    · simp only [mapDeleteA, hq, if_neg, if_false] at h
      rcases List.mem_cons.mp h with rfl | hm
      · exact List.mem_cons_self _ _
      · exact List.mem_cons_of_mem _ (ih hm)

theorem mem_mapSetA_of_ne {β : Type} (k : List Char) (v : β)
    (l : List (List Char × β)) (p : List Char × β) (hp : p ∈ l)
    (hne : p.1 ≠ k) : p ∈ mapSetA k v l := by
  induction l with
  | nil => simp at hp
  | cons q t ih =>
    rcases List.mem_cons.mp hp with rfl | hm
    · simp only [mapSetA, hne, if_neg, if_false]
      exact List.mem_cons_self _ _
    · by_cases hq : q.1 = k
      · simp only [mapSetA, hq, if_pos]
        exact List.mem_cons_of_mem _ hm
      · simp only [mapSetA, hq, if_neg, if_false]
        exact List.mem_cons_of_mem _ (ih hm)

theorem oldestLoop_go {α : Type} (l : List (List Char × CacheEntry α)) :
    ∀ q : List Char × CacheEntry α,
      ∃ r, l.foldl
          (fun acc p =>
            match acc with
            | none => some p
            | some q' => if p.2.lastAccess < q'.2.lastAccess then some p else acc)
          (some q) = some r ∧
        (r ∈ l ∨ r = q) ∧ r.2.lastAccess ≤ q.2.lastAccess ∧
        ∀ p ∈ l, r.2.lastAccess ≤ p.2.lastAccess := by
  induction l with
  | nil => intro q; exact ⟨q, rfl, Or.inr rfl, le_refl _, by simp⟩
  | cons p t ih =>
    intro q
    by_cases hlt : p.2.lastAccess < q.2.lastAccess
    · obtain ⟨r, h1, h2, h3, h4⟩ := ih p
      refine ⟨r, ?_, ?_, ?_, ?_⟩
      · simpa [List.foldl_cons, hlt] using h1
      · rcases h2 with hm | rfl
        · exact Or.inl (List.mem_cons_of_mem _ hm)
        · exact Or.inl (List.mem_cons_self _ _)
      · exact le_trans h3 (le_of_lt hlt)
      · intro x hx
        rcases List.mem_cons.mp hx with rfl | hm
        · exact h3
        · exact h4 x hm
    · obtain ⟨r, h1, h2, h3, h4⟩ := ih q
      refine ⟨r, ?_, ?_, h3, ?_⟩
      · simpa [List.foldl_cons, hlt] using h1
      · rcases h2 with hm | rfl
        · exact Or.inl (List.mem_cons_of_mem _ hm)
        · exact Or.inr rfl
      · intro x hx
        rcases List.mem_cons.mp hx with rfl | hm
        · exact le_trans h3 (not_lt.mp hlt)
        · exact h4 x hm

theorem oldestLoop_spec {α : Type} (x : List Char × CacheEntry α)
    (t : List (List Char × CacheEntry α)) :
    ∃ r, oldestLoop (x :: t) = some r ∧ r ∈ x :: t ∧
      ∀ p ∈ x :: t, r.2.lastAccess ≤ p.2.lastAccess := by
  obtain ⟨r, h1, h2, h3, h4⟩ := oldestLoop_go t x
  refine ⟨r, ?_, ?_, ?_⟩
  · simpa [oldestLoop, List.foldl_cons] using h1
  · rcases h2 with hm | rfl
    · exact List.mem_cons_of_mem _ hm
    · exact List.mem_cons_self _ _
  · intro p hp
    rcases List.mem_cons.mp hp with rfl | hm
    · exact h3
    · exact h4 p hm

theorem oldestLoop_spec' {α : Type} (l : List (List Char × CacheEntry α))
    (h : l ≠ []) :
    ∃ r, oldestLoop l = some r ∧ r ∈ l ∧
      ∀ p ∈ l, r.2.lastAccess ≤ p.2.lastAccess := by
  cases l with
  | nil => exact absurd rfl h
  | cons x t => exact oldestLoop_spec x t

theorem mapHasA_mapDeleteA_false {β : Type} (k k' : List Char)
    (l : List (List Char × β)) (h : mapHasA k l = false) :
    mapHasA k (mapDeleteA k' l) = false := by
  cases hh : mapHasA k (mapDeleteA k' l) with
  | false => rfl
  | true =>
    obtain ⟨v, hv⟩ := Option.isSome_iff_exists.mp hh
    have hmem := mem_of_mem_mapDeleteA k' l (k, v) (mapGetA_mem _ _ _ hv)
    have := mem_mapHasA (k, v) l hmem
    rw [h] at this
    exact absurd this (by simp)

theorem cacheGetM_inv {α : Type} (m : Nat) (c : MemoryCache α) (now : Nat)
    (u : List Char)
    (h1 : c.cache.length ≤ m)
    (h2 : ∀ p ∈ c.cache, p.1 ≠ ([] : List Char)) :
    ((cacheGetM now u c).2).cache.length ≤ m ∧
      (∀ p ∈ ((cacheGetM now u c).2).cache, p.1 ≠ ([] : List Char)) ∧
      ((cacheGetM now u c).2).maxSize = c.maxSize ∧
      ((cacheGetM now u c).2).ttl = c.ttl := by
  unfold cacheGetM
  cases hg : mapGetA u c.cache with
  | none => exact ⟨h1, h2, rfl, rfl⟩
  | some entry =>
    have hhas : mapHasA u c.cache = true := by simp [mapHasA, hg]
    have hukey : u ≠ [] := h2 (u, entry) (mapGetA_mem _ _ _ hg)
    have hset :
        (mapSetA u
            ⟨entry.data, entry.timestamp, entry.accessCount + 1, now⟩
            c.cache).length ≤ m ∧
          ∀ p ∈ mapSetA u
            ⟨entry.data, entry.timestamp, entry.accessCount + 1, now⟩ c.cache,
            p.1 ≠ ([] : List Char) := by
      constructor
      · rw [mapSetA_length_of_has _ _ _ hhas]; exact h1
      · intro p hp
        rcases mem_of_mem_mapSetA _ _ _ _ hp with rfl | hm
        · exact hukey
        · exact h2 p hm
    cases httl : c.ttl with
    | none => exact ⟨hset.1, hset.2, rfl, rfl⟩
    | some t =>
      by_cases hexp : now - entry.timestamp > t
      · simp only [hexp, if_pos]
        refine ⟨le_trans (mapDeleteA_length_le _ _) h1, ?_, by trivial, by trivial⟩
        intro p hp
        exact h2 p (mem_of_mem_mapDeleteA _ _ _ hp)
      · simp only [hexp, if_neg, if_false]
        exact ⟨hset.1, hset.2, by trivial, by trivial⟩

theorem cacheSetM_inv {α : Type} (m : Nat) (c : MemoryCache α) (now : Nat)
    (u : List Char) (d : α) (hm : 1 ≤ m) (hmax : c.maxSize = m)
    (h1 : c.cache.length ≤ m)
    (h2 : ∀ p ∈ c.cache, p.1 ≠ ([] : List Char))
    (hu : u ≠ []) :
    (cacheSetM now u d c).cache.length ≤ m ∧
      (∀ p ∈ (cacheSetM now u d c).cache, p.1 ≠ ([] : List Char)) ∧
      (cacheSetM now u d c).maxSize = c.maxSize ∧
      (cacheSetM now u d c).ttl = c.ttl := by
  unfold cacheSetM
  by_cases hcond : (c.cache.length ≥ c.maxSize ∧ mapHasA u c.cache = false)
  · obtain ⟨hge, hhas⟩ := hcond
    have hlen : c.cache.length = m := le_antisymm h1 (by omega)
    have hne : c.cache ≠ [] := by
      intro h0
      rw [h0] at hlen
      simp at hlen
      omega
    obtain ⟨r, hr1, hr2, _⟩ := oldestLoop_spec' c.cache hne
    have hrk : r.1 ≠ [] := h2 r hr2
    have hrhas : mapHasA r.1 c.cache = true := mem_mapHasA r c.cache hr2
    simp only [if_pos (And.intro hge hhas), hr1, if_neg hrk]
    refine ⟨?_, ?_, by trivial, by trivial⟩
    · rw [mapSetA_length_of_not_has _ _ _ (mapHasA_mapDeleteA_false _ _ _ hhas)]
      have := mapDeleteA_length_of_has r.1 c.cache hrhas
      omega
    · intro p hp
      rcases mem_of_mem_mapSetA _ _ _ _ hp with rfl | hm'
      · exact hu
      · exact h2 p (mem_of_mem_mapDeleteA _ _ _ hm')
  · simp only [if_neg hcond]
    refine ⟨?_, ?_, by trivial, by trivial⟩
    · by_cases hhas : mapHasA u c.cache = true
      · rw [mapSetA_length_of_has _ _ _ hhas]; exact h1
      · have hhas' : mapHasA u c.cache = false := by
          cases hv : mapHasA u c.cache
          · rfl
          · exact absurd hv hhas
        have hlt : c.cache.length < c.maxSize := by
          by_contra hge
          exact hcond ⟨by omega, hhas'⟩
        rw [mapSetA_length_of_not_has _ _ _ hhas']
        omega
    · intro p hp
      rcases mem_of_mem_mapSetA _ _ _ _ hp with rfl | hm'
      · exact hu
      · exact h2 p hm'

theorem mkMemoryCache_maxSize (α : Type) (m : Nat) (t : Option Nat)
    (hm : 1 ≤ m) : (mkMemoryCache α (some m) t).maxSize = m := by
  cases m with
  | zero => omega
  | succ n => rfl

theorem runOps_inv {α : Type} (m : Nat) (hm : 1 ≤ m) :
    ∀ (ops : List (CacheOp α)) (c : MemoryCache α),
      c.maxSize = m → c.cache.length ≤ m →
      (∀ p ∈ c.cache, p.1 ≠ ([] : List Char)) →
      (∀ op ∈ ops, opKey op ≠ ([] : List Char)) →
      (runOps c ops).cache.length ≤ m := by
  intro ops
  induction ops with
  | nil => intro c _ h2 _ _; exact h2
  | cons op rest ih =>
    intro c hmax h1 h2 hops
    cases op with
    | get url now =>
      have hg := cacheGetM_inv m c now url h1 h2
      exact ih _ (hg.2.2.1.trans hmax) hg.1 hg.2.1
        (fun o ho => hops o (List.mem_cons_of_mem _ ho))
    | set url dat now =>
      have hu : url ≠ [] := hops _ (List.mem_cons_self _ _)
      have hs := cacheSetM_inv m c now url dat hm hmax h1 h2 hu
      exact ih _ (hs.2.2.1.trans hmax) hs.1 hs.2.1
        (fun o ho => hops o (List.mem_cons_of_mem _ ho))

/-- C5 counterexample: a capacity-1 cache holding only the empty-string key
is at capacity, yet inserting a fresh key evicts nothing — the oldest (and
only) entry survives and the cache grows to 2 entries, because the source's
`if (oldest)` guard treats the empty-string key as falsy. -/
theorem cache_evict_oldest_cex :
    (cacheSetM 0 [] 10 (mkMemoryCache Nat (some 1) none)).cache.length
        = (mkMemoryCache Nat (some 1) none).maxSize ∧
      mapHasA ("x".data)
        (cacheSetM 0 [] 10 (mkMemoryCache Nat (some 1) none)).cache = false ∧
      (cacheSetM 1 ("x".data) 20
        (cacheSetM 0 [] 10 (mkMemoryCache Nat (some 1) none))).cache.length = 2 ∧
      mapHasA []
        (cacheSetM 1 ("x".data) 20
          (cacheSetM 0 [] 10 (mkMemoryCache Nat (some 1) none))).cache = true := by
  decide

/-- C5 amended. At capacity, inserting a fresh key evicts an entry whose
`lastAccess` is minimal — never a more recently accessed one — provided
every resident key is non-empty (the source skips eviction when the chosen
key is the empty string); and a `get` hit refreshes the entry's
`lastAccess` to the current clock, which is what protects recently-read
entries. -/
theorem cache_evict_oldest_amended {α : Type} (c : MemoryCache α)
    (k : List Char) (d : α) (now : Nat)
    (hcap : c.cache.length = c.maxSize) (hm : 1 ≤ c.maxSize)
    (hkeys : ∀ p ∈ c.cache, p.1 ≠ ([] : List Char))
    (hnew : mapHasA k c.cache = false) :
    ∃ victim, victim ∈ c.cache ∧
      (∀ q ∈ c.cache, victim.2.lastAccess ≤ q.2.lastAccess) ∧
      (cacheSetM now k d c).cache
        = mapSetA k ⟨d, now, 0, now⟩ (mapDeleteA victim.1 c.cache) ∧
      (∀ u e, c.ttl = none → mapGetA u c.cache = some e →
        mapGetA u ((cacheGetM now u c).2).cache
          = some ⟨e.data, e.timestamp, e.accessCount + 1, now⟩) := by
  have hne : c.cache ≠ [] := by
    intro h0
    rw [h0] at hcap
    simp at hcap
    omega
  obtain ⟨r, hr1, hr2, hr3⟩ := oldestLoop_spec' c.cache hne
  refine ⟨r, hr2, hr3, ?_, ?_⟩
  · unfold cacheSetM
    have hrk : r.1 ≠ [] := hkeys r hr2
    simp only [if_pos (And.intro (le_of_eq hcap.symm) hnew), hr1, if_neg hrk]
  · intro u e httl hget
    unfold cacheGetM
    simp only [hget, httl]
    exact mapGetA_mapSetA_self _ _ _

/-- C5 witness: in a two-entry cache at capacity where key `b` was accessed
least recently, inserting key `c` satisfies the amended eviction contract. -/
theorem cache_evict_oldest_amended_witness :
    c5Cache.cache.length = c5Cache.maxSize ∧ 1 ≤ c5Cache.maxSize ∧
      (∀ p ∈ c5Cache.cache, p.1 ≠ ([] : List Char)) ∧
      mapHasA ("c".data) c5Cache.cache = false ∧
      (∃ victim, victim ∈ c5Cache.cache ∧
        (∀ q ∈ c5Cache.cache, victim.2.lastAccess ≤ q.2.lastAccess) ∧
        (cacheSetM 9 ("c".data) 30 c5Cache).cache
          = mapSetA ("c".data) ⟨30, 9, 0, 9⟩ (mapDeleteA victim.1 c5Cache.cache) ∧
        (∀ u e, c5Cache.ttl = none → mapGetA u c5Cache.cache = some e →
          mapGetA u ((cacheGetM 9 u c5Cache).2).cache
            = some ⟨e.data, e.timestamp, e.accessCount + 1, 9⟩)) :=
  ⟨rfl, by decide, by decide, by decide,
   cache_evict_oldest_amended c5Cache ("c".data) 30 9 rfl (by decide)
     (by decide) (by decide)⟩

/-- C10 counterexample: starting from an empty capacity-1 cache, setting the
empty-string key and then a second key leaves 2 entries — the entry count
exceeds `maxSize`, because the skipped eviction of the empty-string key lets
the cache grow unboundedly. -/
theorem cache_capacity_cex :
    (mkMemoryCache Nat (some 1) none).maxSize = 1 ∧
      (runOps (mkMemoryCache Nat (some 1) none)
        [.set [] 10 0, .set ("x".data) 20 1]).cache.length = 2 := by
  decide

/-- C10 amended. For every capacity `m ≥ 1` and every operation sequence
whose keys are all non-empty, the entry count never exceeds `m`; and a `set`
on an already-present key replaces that entry in place — the backing map is
rewritten with `mapSetA`, the entry count is unchanged, and every other
entry survives. -/
theorem cache_capacity_invariant_amended {α : Type} (m : Nat)
    (ttlOpt : Option Nat) (ops : List (CacheOp α)) (c : MemoryCache α)
    (k : List Char) (d : α) (now : Nat)
    (hm : 1 ≤ m)
    (hkeys : ∀ op ∈ ops, opKey op ≠ ([] : List Char))
    (hpres : mapHasA k c.cache = true) :
    (runOps (mkMemoryCache α (some m) ttlOpt) ops).cache.length ≤ m ∧
      (cacheSetM now k d c).cache = mapSetA k ⟨d, now, 0, now⟩ c.cache ∧
      (cacheSetM now k d c).cache.length = c.cache.length ∧
      (∀ p ∈ c.cache, p.1 ≠ k → p ∈ (cacheSetM now k d c).cache) := by
  have hset : (cacheSetM now k d c).cache
      = mapSetA k ⟨d, now, 0, now⟩ c.cache := by
    unfold cacheSetM
    have hcond : ¬(c.cache.length ≥ c.maxSize ∧ mapHasA k c.cache = false) := by
      simp [hpres]
    simp only [if_neg hcond]
  refine ⟨?_, hset, ?_, ?_⟩
  · exact runOps_inv m hm ops _ (mkMemoryCache_maxSize α m ttlOpt hm)
      (by simp [mkMemoryCache]) (by simp [mkMemoryCache]) hkeys
  · rw [hset]
    exact mapSetA_length_of_has _ _ _ hpres
  · intro p hp hne
    rw [hset]
    exact mem_mapSetA_of_ne _ _ _ _ hp hne

/-- C10 witness: a get/set sequence with non-empty keys on a capacity-2
cache, plus an in-place overwrite of the present key `a`. -/
theorem cache_capacity_invariant_amended_witness :
    (1 ≤ 2) ∧
    (∀ op ∈ ([.get ("a".data) 1, .set ("b".data) 7 2,
        .set ("c".data) 8 3] : List (CacheOp Nat)),
      opKey op ≠ ([] : List Char)) ∧
    mapHasA ("a".data) c10Cache.cache = true ∧
    ((runOps (mkMemoryCache Nat (some 2) none)
        [.get ("a".data) 1, .set ("b".data) 7 2,
          .set ("c".data) 8 3]).cache.length ≤ 2 ∧
      (cacheSetM 4 ("a".data) 9 c10Cache).cache
        = mapSetA ("a".data) ⟨9, 4, 0, 4⟩ c10Cache.cache ∧
      (cacheSetM 4 ("a".data) 9 c10Cache).cache.length = c10Cache.cache.length ∧
      (∀ p ∈ c10Cache.cache, p.1 ≠ ("a".data) →
        p ∈ (cacheSetM 4 ("a".data) 9 c10Cache).cache)) :=
  ⟨by decide, by decide, by decide,
   cache_capacity_invariant_amended 2 none
     [.get ("a".data) 1, .set ("b".data) 7 2, .set ("c".data) 8 3]
     c10Cache ("a".data) 9 4 (by decide) (by decide) (by decide)⟩

/-- C8 counterexample: the `CheerioStrategy.scrape` request handler computes
`$('title').text() || 'Untitled'` with no `<h1>`/`og:title` fallback — for a
document with empty `<title>` text and first-`<h1>` text `H`, this static
path returns `Untitled`, not `H` as the claimed priority chain demands. -/
theorem cheerio_strategy_title_cex :
    cheerioStrategyTitle [] = untitledChars ∧
    ("H".data ≠ ([] : List Char)) ∧
    cheerioStrategyTitle [] ≠ "H".data :=
  ⟨rfl, by decide, by decide⟩

/-- C8 amended. The `helpers.js` extraction paths (`scrapeWebsite` and
`scrapeWebsitePlaywright`) follow the claimed priority: the `<title>` text
wins when non-empty, else the first non-empty `<h1>` text, else a non-empty
`og:title` meta content, else the `Untitled` sentinel — in particular, when
all three are present and non-empty the result is the `<title>` value. The
`lib` strategy classes (`CheerioStrategy.scrape` and
`PlaywrightStrategy.scrape`) instead compute only `<title>`-text `||`
`'Untitled'`: the `<title>` still wins when non-empty, but when it is absent
they return `Untitled` regardless of any `<h1>` or `og:title`. -/
theorem extract_title_priority (t h s : List Char) (og : Option (List Char))
    (tp hq oq : Option (List Char)) (st sh sp : List Char) (tc tq : List Char) :
    (t ≠ [] → scrapeWebsiteTitle t h og = t) ∧
    (t = [] → h ≠ [] → scrapeWebsiteTitle t h og = h) ∧
    (t = [] → h = [] → og = some s → s ≠ [] → scrapeWebsiteTitle t h og = s) ∧
    (t = [] → h = [] → (og = none ∨ og = some []) →
      scrapeWebsiteTitle t h og = untitledChars) ∧
    (tp = some st → st ≠ [] → scrapeWebsitePlaywrightTitle tp hq oq = st) ∧
    ((tp = none ∨ tp = some []) → hq = some sh → sh ≠ [] →
      scrapeWebsitePlaywrightTitle tp hq oq = sh) ∧
    ((tp = none ∨ tp = some []) → (hq = none ∨ hq = some []) →
      oq = some sp → sp ≠ [] → scrapeWebsitePlaywrightTitle tp hq oq = sp) ∧
    ((tp = none ∨ tp = some []) → (hq = none ∨ hq = some []) →
      (oq = none ∨ oq = some []) →
      scrapeWebsitePlaywrightTitle tp hq oq = untitledChars) ∧
    (tc ≠ [] → cheerioStrategyTitle tc = tc) ∧
    (tc = [] → cheerioStrategyTitle tc = untitledChars) ∧
    (tq ≠ [] → playwrightStrategyTitle tq = tq) ∧
    (tq = [] → playwrightStrategyTitle tq = untitledChars) := by
  refine ⟨?_, ?_, ?_, ?_, ?_, ?_, ?_, ?_, ?_, ?_, ?_, ?_⟩
  · intro h1
    simp [scrapeWebsiteTitle, jsOrS, h1]
  · intro h1 h2
    simp [scrapeWebsiteTitle, jsOrS, h1, h2]
  · intro h1 h2 h3 h4
    simp [scrapeWebsiteTitle, jsOrS, jsOrOpt, h1, h2, h3, h4]
  · intro h1 h2 h3
    rcases h3 with h3 | h3 <;>
      simp [scrapeWebsiteTitle, jsOrS, jsOrOpt, h1, h2, h3]
  · intro h1 h2
    simp [scrapeWebsitePlaywrightTitle, jsOrOpt, jsOrS, h1, h2]
  · intro h1 h2 h3
    rcases h1 with h1 | h1 <;>
      simp [scrapeWebsitePlaywrightTitle, jsOrOpt, jsOrS, h1, h2, h3]
  · intro h1 h2 h3 h4
    rcases h1 with h1 | h1 <;> rcases h2 with h2 | h2 <;>
      simp [scrapeWebsitePlaywrightTitle, jsOrOpt, jsOrS, h1, h2, h3, h4]
  · intro h1 h2 h3
    rcases h1 with h1 | h1 <;> rcases h2 with h2 | h2 <;>
      rcases h3 with h3 | h3 <;>
      simp [scrapeWebsitePlaywrightTitle, jsOrOpt, jsOrS, h1, h2, h3]
  · intro h1
    simp [cheerioStrategyTitle, jsOrS, h1]
  · intro h1
    simp [cheerioStrategyTitle, jsOrS, h1]
  · intro h1
    simp [playwrightStrategyTitle, jsOrS, h1]
  · intro h1
    simp [playwrightStrategyTitle, jsOrS, h1]

/-- C8 witness: with `<title>`, `<h1>` and `og:title` all present and
non-empty, all four paths return the `<title>` value; with nothing present
the `helpers.js` paths return the sentinel, and with only an `<h1>` present
the strategy classes still return the sentinel. -/
theorem extract_title_priority_witness :
    ("T".data ≠ ([] : List Char)) ∧
    scrapeWebsiteTitle ("T".data) ("H".data) (some ("O".data)) = "T".data ∧
    scrapeWebsitePlaywrightTitle (some ("T".data)) (some ("H".data))
      (some ("O".data)) = "T".data ∧
    scrapeWebsiteTitle [] [] none = untitledChars ∧
    scrapeWebsitePlaywrightTitle none none none = untitledChars ∧
    cheerioStrategyTitle ("T".data) = "T".data ∧
    cheerioStrategyTitle [] = untitledChars ∧
    playwrightStrategyTitle ("T".data) = "T".data ∧
    playwrightStrategyTitle [] = untitledChars :=
  ⟨by decide,
   (extract_title_priority ("T".data) ("H".data) [] (some ("O".data))
     none none none [] [] [] [] []).1 (by decide),
   (extract_title_priority [] [] [] none (some ("T".data)) (some ("H".data))
     (some ("O".data)) ("T".data) [] [] [] []).2.2.2.2.1 rfl (by decide),
   (extract_title_priority [] [] [] none none none none [] [] [] [] []).2.2.2.1
     rfl rfl (Or.inl rfl),
   (extract_title_priority [] [] [] none none none none [] [] [] [] []).2.2.2.2.2.2.2.1
     (Or.inl rfl) (Or.inl rfl) (Or.inl rfl),
   (extract_title_priority [] [] [] none none none none [] [] []
     ("T".data) ("T".data)).2.2.2.2.2.2.2.2.1 (by decide),
   (extract_title_priority [] [] [] none none none none [] [] [] [] []).2.2.2.2.2.2.2.2.2.1
     rfl,
   (extract_title_priority [] [] [] none none none none [] [] []
     ("T".data) ("T".data)).2.2.2.2.2.2.2.2.2.2.1 (by decide),
   (extract_title_priority [] [] [] none none none none [] [] [] [] []).2.2.2.2.2.2.2.2.2.2.2
     rfl⟩

/-- C9 counterexample: a record with a real title and a 200-character body
is still flagged invalid when the body contains the `Not Found`
access-restriction marker — the claim's second half fails as stated. -/
theorem validateContent_valid_cex :
    c9CexData.html.length = 200 ∧
    c9CexData.title ≠ untitledChars ∧
    (validateContentM (some c9CexData)).1 = false :=
  ⟨by decide, by decide, by rfl⟩

/-- C9 amended. A record whose title is `Untitled` with under 100 combined
characters is invalid with at least one issue (as claimed); a record with a
200+ character body is valid provided additionally its trimmed title is
non-empty and not case-insensitively `untitled`, and neither its html nor
its trimmed text contains an access-restriction marker. -/
theorem validateContent_spec_amended (d dBad : ScrapedData)
    (h1 : jsTrim d.title ≠ [])
    (h2 : jsToLowerStr (jsTrim d.title) ≠ untitledLowerChars)
    (h3 : 200 ≤ d.html.length)
    (h4 : ∀ tok ∈ blockedTokens, jsIncludes d.html tok = false ∧
      jsIncludes (jsTrim d.text) tok = false)
    (h5 : dBad.title = untitledChars)
    (h6 : dBad.html.length + dBad.text.length < 100) :
    (validateContentM (some d)).1 = true ∧
      (validateContentM (some dBad)).1 = false ∧
      (validateContentM (some dBad)).2 ≠ [] := by
  refine ⟨?_, ?_, ?_⟩
  · have hcondT : ¬(jsTrim d.title = []
        ∨ jsToLowerStr (jsTrim d.title) = untitledLowerChars) := by
      rintro (hc | hc)
      · exact h1 hc
      · exact h2 hc
    have hcondL : ¬(d.html.length + (jsTrim d.text).length < 100) := by omega
    have hA := (h4 ("Access Denied".data) (by decide)).1
    have hA' := (h4 ("Access Denied".data) (by decide)).2
    have hB := (h4 ("403 Forbidden".data) (by decide)).1
    have hB' := (h4 ("403 Forbidden".data) (by decide)).2
    have hC := (h4 ("You don\x27t have permission".data) (by decide)).1
    have hC' := (h4 ("You don\x27t have permission".data) (by decide)).2
    have hD := (h4 ("Not Found".data) (by decide)).1
    have hD' := (h4 ("Not Found".data) (by decide)).2
    unfold validateContentM
    simp [blockedTokens, hcondT, hcondL, hA, hA', hB, hB', hC, hC', hD, hD']
  · have htitle : jsTrim dBad.title = []
        ∨ jsToLowerStr (jsTrim dBad.title) = untitledLowerChars := by
      right
      rw [h5]
      decide
    unfold validateContentM
    simp [htitle]
  · have htitle : jsTrim dBad.title = []
        ∨ jsToLowerStr (jsTrim dBad.title) = untitledLowerChars := by
      right
      rw [h5]
      decide
    unfold validateContentM
    simp [htitle]

/-- C9 witness: the valid record (`Hello World`, 200-character clean body)
and the invalid record (`Untitled`, 13 combined characters). -/
theorem validateContent_spec_amended_witness :
    jsTrim c9GoodData.title ≠ [] ∧
    jsToLowerStr (jsTrim c9GoodData.title) ≠ untitledLowerChars ∧
    200 ≤ c9GoodData.html.length ∧
    (∀ tok ∈ blockedTokens, jsIncludes c9GoodData.html tok = false ∧
      jsIncludes (jsTrim c9GoodData.text) tok = false) ∧
    c9BadData.title = untitledChars ∧
    c9BadData.html.length + c9BadData.text.length < 100 ∧
    ((validateContentM (some c9GoodData)).1 = true ∧
      (validateContentM (some c9BadData)).1 = false ∧
      (validateContentM (some c9BadData)).2 ≠ []) :=
  ⟨by decide, by decide, by decide, by decide, rfl, by decide,
   validateContent_spec_amended c9GoodData c9BadData (by decide) (by decide)
     (by decide) (by decide) rfl (by decide)⟩

end ObsidianScraper
